import Mathlib

/-!
Shallow embedding of the branch-predictor simulation engine of
`src/predictors.py` (classes `BranchPredictor`, `AlwaysTakenPredictor`,
`NeverTakenPredictor`, `BimodalPredictor`, `GSharePredictor`,
`PerceptronPredictor`, `TAGEPredictor`).

Modelling conventions:
* Python ints are `Int` (or `Nat` where the value is provably non-negative:
  histories, tags, table ids); Python `%` is `Int.fmod` (floor mod, the exact
  Python semantics), with `mod` by zero modelled as a `ZeroDivisionError`
  (`none`).
* The outcome strings are the two-valued enumeration `Outcome`.
* Address tokens (Python `str` or `int` arguments) are `PyAddr`; the
  string-to-int conversion `int(a, 16) if a.startswith(0x) else int(a)`
  is modelled by `addrVal?` over the token's character list (`none` models the
  `ValueError` raised on tokens that parse as neither; whitespace and
  underscore separators, which Python `int` also accepts, are not modelled —
  no claim depends on them).
* Python list indexing/assignment (with negative-index wrap-around and
  `IndexError` as `none`) is `pyGet` / `pySet`; these are used for the
  Bimodal and GShare embeddings, whose error behaviour claims depend on.
  The Perceptron and TAGE embeddings take an already-converted non-negative
  address and use total `List.getD` / `List.set` access: for the well-formed
  states reached from their constructors with a positive table size (the only
  states the claims below quantify over) every access is in range, where this
  agrees with Python list indexing.
* Methods that mutate `self` return the new state; `predict`, which performs
  no field assignment, is embedded in state-passing style (`...PredictS`)
  returning the outcome together with the state, so that its frame behaviour
  is a statement, not a convention.
-/

/-- Branch outcome enumeration: the strings `taken` / `not_taken` of the source. -/
inductive Outcome where
  | taken : Outcome
  | not_taken : Outcome
deriving DecidableEq, Repr

/-- Address argument of `predict` / `update`: a Python `str` (as its character
list) or a Python `int`. -/
inductive PyAddr where
  | str : List Char → PyAddr
  | int : Int → PyAddr
deriving DecidableEq, Repr

/-- Value of a decimal digit character, `none` on any other character. -/
def decDigit? (c : Char) : Option Nat :=
  if '0' ≤ c ∧ c ≤ '9' then some (c.toNat - '0'.toNat) else none

/-- Value of a hexadecimal digit character, `none` on any other character. -/
def hexDigit? (c : Char) : Option Nat :=
  if '0' ≤ c ∧ c ≤ '9' then some (c.toNat - '0'.toNat)
  else if 'a' ≤ c ∧ c ≤ 'f' then some (c.toNat - 'a'.toNat + 10)
  else if 'A' ≤ c ∧ c ≤ 'F' then some (c.toNat - 'A'.toNat + 10)
  else none

/-- Accumulating digit-string evaluation; `none` as soon as a non-digit occurs. -/
def digitsAux (digit? : Char → Option Nat) (base : Nat) : List Char → Nat → Option Nat
  | [], acc => some acc
  | c :: cs, acc =>
    match digit? c with
    | some d => digitsAux digit? base cs (acc * base + d)
    | none => none

/-- Value of a non-empty digit string, `none` if empty or containing a non-digit. -/
def digitsVal? (digit? : Char → Option Nat) (base : Nat) : List Char → Option Nat
  | [] => none
  | c :: cs =>
    match digit? c with
    | some d => digitsAux digit? base cs d
    | none => none

/-- Python `int(s)` on a whitespace-free token: optional sign then decimal
digits; `none` models the `ValueError` on anything else. -/
def pyIntDec? (cs : List Char) : Option Int :=
  match cs with
  | '+' :: rest => (digitsVal? decDigit? 10 rest).map fun n => (n : Int)
  | '-' :: rest => (digitsVal? decDigit? 10 rest).map fun n => -(n : Int)
  | _ => (digitsVal? decDigit? 10 cs).map fun n => (n : Int)

/-- Python `int(s, 16)` restricted to the call sites of the source, which only
reach it for tokens starting with the two characters `0x`: the prefix followed
by at least one hexadecimal digit; `none` models the `ValueError`. -/
def pyIntHex16? (cs : List Char) : Option Int :=
  match cs with
  | '0' :: 'x' :: rest => (digitsVal? hexDigit? 16 rest).map fun n => (n : Int)
  | _ => none

/-- Python `address.startswith` applied to the two-character prefix `0x`. -/
def startsWith0x : List Char → Bool
  | '0' :: 'x' :: _ => true
  | _ => false

/-- The string-or-int address conversion idiom repeated in every `_get_index`
and `_get_tag` of the source:
`int(address, 16) if address.startswith(0x) else int(address)` for strings,
the identity for ints. `none` models the `ValueError` raised on a string that
parses as neither numeral — the source has no further fallback. -/
def addrVal? : PyAddr → Option Int
  | PyAddr.str cs => if startsWith0x cs then pyIntHex16? cs else pyIntDec? cs
  | PyAddr.int n => some n

/-- Python `a % b`: floor modulus, with `ZeroDivisionError` as `none`. -/
def pymod (a b : Int) : Option Int :=
  if b = 0 then none else some (a.fmod b)

/-- Python list index resolution: negative indices count from the end;
`none` models `IndexError`. -/
def pyIdx (l : List α) (i : Int) : Option Nat :=
  let j := if i < 0 then (l.length : Int) + i else i
  if 0 ≤ j ∧ j < (l.length : Int) then some j.toNat else none

/-- Python list read `l[i]` with `IndexError` as `none`. -/
def pyGet (l : List α) (i : Int) : Option α :=
  (pyIdx l i).bind fun n => l[n]?

/-- Python list write `l[i] = a` with `IndexError` as `none`. -/
def pySet (l : List α) (i : Int) (a : α) : Option (List α) :=
  (pyIdx l i).map fun n => l.set n a

/-- Python xor of an arbitrary int with a non-negative int (two's-complement
on the conceptually infinite bit string, exactly Python's semantics):
on a negative left operand `-(m+1) = ~m`, `~m ^^^ b = ~(m ^^^ b)`. -/
def intXor (a : Int) (b : Nat) : Int :=
  match a with
  | Int.ofNat m => Int.ofNat (m ^^^ b)
  | Int.negSucc m => Int.negSucc (m ^^^ b)

/-- Accuracy computation of the base class `BranchPredictor.get_accuracy`:
`0.0` when `total_predictions` is zero, else the ratio (modelled in `ℚ`). -/
def getAccuracy (correct_predictions total_predictions : Nat) : ℚ :=
  if total_predictions = 0 then 0
  else (correct_predictions : ℚ) / (total_predictions : ℚ)

/-- Counter state of the static predictors (`AlwaysTakenPredictor`,
`NeverTakenPredictor`), which own no table beyond the base-class counters. -/
structure StaticState where
  correct_predictions : Nat
  total_predictions : Nat
deriving DecidableEq, Repr

/-- The `AlwaysTakenPredictor.predict` method in state-passing form: its body
is a bare `return`, so the state component is the unchanged receiver. -/
def alwaysTakenPredictS (s : StaticState) (_address : PyAddr) : Outcome × StaticState :=
  (Outcome.taken, s)

/-- The `NeverTakenPredictor.predict` method in state-passing form. -/
def neverTakenPredictS (s : StaticState) (_address : PyAddr) : Outcome × StaticState :=
  (Outcome.not_taken, s)

/-- State of `BimodalPredictor`: the stored `table_size` argument, the table of
2-bit counters, and the base-class statistics counters. -/
structure BimodalState where
  table_size : Int
  table : List Int
  correct_predictions : Nat
  total_predictions : Nat
deriving DecidableEq, Repr

/-- The `BimodalPredictor` constructor: `table = [1] * table_size` (an empty
list when the size is non-positive, exactly Python list repetition). -/
def bimodalInit (table_size : Int) : BimodalState :=
  { table_size := table_size
    table := List.replicate table_size.toNat 1
    correct_predictions := 0
    total_predictions := 0 }

/-- The `BimodalPredictor._get_index` method: string-to-int conversion followed
by `address % self.table_size`. -/
def bimodalGetIndex (s : BimodalState) (address : PyAddr) : Option Int :=
  (addrVal? address).bind fun v => pymod v s.table_size

/-- The `BimodalPredictor.predict` method in state-passing form: taken iff the
indexed counter is at least 2; `none` models a raised exception. -/
def bimodalPredictS (s : BimodalState) (address : PyAddr) : Option (Outcome × BimodalState) :=
  (bimodalGetIndex s address).bind fun index =>
  (pyGet s.table index).map fun c =>
  ((if 2 ≤ c then Outcome.taken else Outcome.not_taken), s)

/-- The `BimodalPredictor.update` method: recompute the prediction, bump the
statistics, then saturating-increment (on taken) or -decrement the counter. -/
def bimodalUpdate (s : BimodalState) (address : PyAddr) (actual_outcome : Outcome) :
    Option BimodalState :=
  (bimodalGetIndex s address).bind fun index =>
  (pyGet s.table index).bind fun c =>
  let prediction := if 2 ≤ c then Outcome.taken else Outcome.not_taken
  let s1 : BimodalState :=
    { s with
      total_predictions := s.total_predictions + 1
      correct_predictions :=
        s.correct_predictions + (if prediction = actual_outcome then 1 else 0) }
  let newc := if actual_outcome = Outcome.taken then min 3 (c + 1) else max 0 (c - 1)
  (pySet s1.table index newc).map fun t => { s1 with table := t }

/-- The `BimodalPredictor.reset` method: zero the statistics and refill the
table with the construction-time value 1. -/
def bimodalReset (s : BimodalState) : BimodalState :=
  { s with
    correct_predictions := 0
    total_predictions := 0
    table := List.replicate s.table_size.toNat 1 }

/-- A sequence of `update` calls on a Bimodal predictor, stopping with `none`
if any call raises. -/
def bimodalRunUpdates (s : BimodalState) : List (PyAddr × Outcome) → Option BimodalState
  | [] => some s
  | (a, o) :: rest => (bimodalUpdate s a o).bind fun s1 => bimodalRunUpdates s1 rest

/-- State of `GSharePredictor`: history register width and value, counter
table, and the base-class statistics counters. -/
structure GShareState where
  history_bits : Nat
  table_size : Int
  history : Nat
  table : List Int
  correct_predictions : Nat
  total_predictions : Nat
deriving DecidableEq, Repr

/-- The `GSharePredictor` constructor. -/
def gshareInit (history_bits : Nat) (table_size : Int) : GShareState :=
  { history_bits := history_bits
    table_size := table_size
    history := 0
    table := List.replicate table_size.toNat 1
    correct_predictions := 0
    total_predictions := 0 }

/-- The `GSharePredictor._get_index` method:
`(address ^ self.history) % self.table_size` after string conversion. -/
def gshareGetIndex (s : GShareState) (address : PyAddr) : Option Int :=
  (addrVal? address).bind fun v => pymod (intXor v s.history) s.table_size

/-- The `GSharePredictor.predict` method in state-passing form. -/
def gsharePredictS (s : GShareState) (address : PyAddr) : Option (Outcome × GShareState) :=
  (gshareGetIndex s address).bind fun index =>
  (pyGet s.table index).map fun c =>
  ((if 2 ≤ c then Outcome.taken else Outcome.not_taken), s)

/-- The `GSharePredictor.update` method: statistics, saturating counter move,
then the global-history shift masked to `history_bits` bits. -/
def gshareUpdate (s : GShareState) (address : PyAddr) (actual_outcome : Outcome) :
    Option GShareState :=
  (gshareGetIndex s address).bind fun index =>
  (pyGet s.table index).bind fun c =>
  let prediction := if 2 ≤ c then Outcome.taken else Outcome.not_taken
  let s1 : GShareState :=
    { s with
      total_predictions := s.total_predictions + 1
      correct_predictions :=
        s.correct_predictions + (if prediction = actual_outcome then 1 else 0) }
  let newc := if actual_outcome = Outcome.taken then min 3 (c + 1) else max 0 (c - 1)
  (pySet s1.table index newc).map fun t =>
  { s1 with
    table := t
    history :=
      ((s.history <<< 1) ||| (if actual_outcome = Outcome.taken then 1 else 0)) &&&
        ((1 <<< s.history_bits) - 1) }

/-- The `GSharePredictor.reset` method. -/
def gshareReset (s : GShareState) : GShareState :=
  { s with
    correct_predictions := 0
    total_predictions := 0
    history := 0
    table := List.replicate s.table_size.toNat 1 }

/-- A sequence of `update` calls on a GShare predictor. -/
def gshareRunUpdates (s : GShareState) : List (PyAddr × Outcome) → Option GShareState
  | [] => some s
  | (a, o) :: rest => (gshareUpdate s a o).bind fun s1 => gshareRunUpdates s1 rest

/-- State of `PerceptronPredictor`: configuration, history register, the
per-index weight vectors, and the base-class statistics counters. The training
threshold, a Python float compared against an integer product, is modelled
in `ℚ` (the default 1.5 is exactly representable). -/
structure PerceptronState where
  history_length : Nat
  table_size : Nat
  threshold : ℚ
  history : Nat
  weights : List (List Int)
  correct_predictions : Nat
  total_predictions : Nat
deriving DecidableEq, Repr

/-- The `PerceptronPredictor` constructor: `table_size` weight vectors of
`history_length + 1` zeros each. -/
def perceptronInit (history_length table_size : Nat) (threshold : ℚ) : PerceptronState :=
  { history_length := history_length
    table_size := table_size
    threshold := threshold
    history := 0
    weights := List.replicate table_size (List.replicate (history_length + 1) 0)
    correct_predictions := 0
    total_predictions := 0 }

/-- The bipolar feature vector of the perceptron: `x[0] = 1` is the bias input,
and `x[k+1]` is `+1` when history bit `k` (as read by `(history >> k) & 1` in
`_compute_output` and `update`) is set, else `-1`. -/
def xFeat (hist : Nat) : Nat → Int
  | 0 => 1
  | k + 1 => if (hist >>> k) &&& 1 = 1 then 1 else -1

/-- The `PerceptronPredictor._compute_output` method: bias weight plus the sum
over history bits of `weight * (1 if bit else -1)`. -/
def perceptronComputeOutput (s : PerceptronState) (index : Nat) : Int :=
  (List.range s.history_length).foldl
    (fun output i =>
      output +
        (s.weights.getD index []).getD (i + 1) 0 *
          (if (s.history >>> i) &&& 1 = 1 then 1 else -1))
    ((s.weights.getD index []).getD 0 0)

/-- The `y` of the training rule: `1 if actual_outcome is taken else -1`
(the local `actual` of `PerceptronPredictor.update`). -/
def perceptronY (actual_outcome : Outcome) : Int :=
  if actual_outcome = Outcome.taken then 1 else -1

/-- The weight-vector mutation of `PerceptronPredictor.update`: the in-place
writes `weights[index][0] += actual` and, for `i < history_length`,
`weights[index][i+1] += actual * x[i+1]` touch each of the slots `0..H`
exactly once, each combined with its own old value only; they are modelled as
a positional rebuild that adds `y * x[k]` to slot `k` for `k ≤ H` and leaves
any further slot unchanged. -/
def trainWeights (hist : Nat) (H : Nat) (y : Int) : Nat → List Int → List Int
  | _, [] => []
  | k, w :: ws =>
    if H + 1 ≤ k then w :: ws
    else (w + y * xFeat hist k) :: trainWeights hist H y (k + 1) ws

/-- The `PerceptronPredictor.predict` method in state-passing form: taken iff
the dot product is non-negative. -/
def perceptronPredictS (s : PerceptronState) (address : Nat) : Outcome × PerceptronState :=
  let index := address % s.table_size
  let output := perceptronComputeOutput s index
  ((if 0 ≤ output then Outcome.taken else Outcome.not_taken), s)

/-- The `PerceptronPredictor.update` method: statistics, the thresholded
training rule (train iff `actual * output <= self.threshold`), then the
history shift masked to `history_length` bits. -/
def perceptronUpdate (s : PerceptronState) (address : Nat) (actual_outcome : Outcome) :
    PerceptronState :=
  let index := address % s.table_size
  let output := perceptronComputeOutput s index
  let prediction := if 0 ≤ output then Outcome.taken else Outcome.not_taken
  let s1 : PerceptronState :=
    { s with
      total_predictions := s.total_predictions + 1
      correct_predictions :=
        s.correct_predictions + (if prediction = actual_outcome then 1 else 0) }
  let actual := perceptronY actual_outcome
  let s2 : PerceptronState :=
    if ((actual : ℚ) * (output : ℚ)) ≤ s.threshold then
      { s1 with
        weights :=
          s1.weights.set index
            (trainWeights s.history s.history_length actual 0 (s1.weights.getD index [])) }
    else s1
  { s2 with
    history :=
      ((s.history <<< 1) ||| (if actual_outcome = Outcome.taken then 1 else 0)) &&&
        ((1 <<< s.history_length) - 1) }

/-- The `PerceptronPredictor.reset` method. -/
def perceptronReset (s : PerceptronState) : PerceptronState :=
  { s with
    correct_predictions := 0
    total_predictions := 0
    history := 0
    weights := List.replicate s.table_size (List.replicate (s.history_length + 1) 0) }

/-- One `[counter, tag, useful]` slot of a TAGE tagged table. -/
structure TaggedEntry where
  counter : Int
  tag : Nat
  useful : Nat
deriving DecidableEq, Repr

/-- State of `TAGEPredictor`: base bimodal table, the tagged tables with their
geometric history lengths, the shared global history register, and the
base-class statistics counters. -/
structure TAGEState where
  num_tables : Nat
  base_table_size : Nat
  base_table : List Int
  tagged_tables : List (List TaggedEntry)
  history_lengths : List Nat
  global_history : Nat
  max_history : Nat
  correct_predictions : Nat
  total_predictions : Nat
deriving DecidableEq, Repr

/-- The `TAGEPredictor` constructor: base table of 1s, for each `i` a history
length `2^(i+1)` and a tagged table of `[1, 0, 0]` entries, zero global
history, and `max_history` the last history length (0 if there are no
tables). -/
def tageInit (num_tables base_table_size : Nat) : TAGEState :=
  { num_tables := num_tables
    base_table_size := base_table_size
    base_table := List.replicate base_table_size 1
    tagged_tables :=
      List.replicate num_tables
        (List.replicate base_table_size (TaggedEntry.mk 1 0 0))
    history_lengths := (List.range num_tables).map fun i => 2 ^ (i + 1)
    global_history := 0
    max_history :=
      match ((List.range num_tables).map fun i => 2 ^ (i + 1)).getLast? with
      | some h => h
      | none => 0
    correct_predictions := 0
    total_predictions := 0 }

/-- The `TAGEPredictor._get_base_index` method for an already-converted
non-negative address. -/
def tageGetBaseIndex (s : TAGEState) (address : Nat) : Nat :=
  address % s.base_table_size

/-- The `TAGEPredictor._get_tag` method: xor the address with the global
history masked to `history_len` bits, reduced modulo the fixed tag space
256. -/
def tageGetTag (s : TAGEState) (address : Nat) (history_len : Nat) : Nat :=
  (address ^^^ (s.global_history &&& ((1 <<< history_len) - 1))) % 256

/-- The `TAGEPredictor._get_index` method: xor the address with the global
history masked to table `table_id`'s history length, reduced modulo the table
size. -/
def tageGetIndex (s : TAGEState) (address : Nat) (table_id : Nat) : Nat :=
  (address ^^^
      (s.global_history &&& ((1 <<< (s.history_lengths.getD table_id 0)) - 1))) %
    s.base_table_size

/-- The slot `self.tagged_tables[i][index]`; the defaults are never reached on
states whose table shapes come from the constructor. -/
def tageEntry (s : TAGEState) (i index : Nat) : TaggedEntry :=
  (s.tagged_tables.getD i []).getD index (TaggedEntry.mk 0 0 0)

/-- The provider scan of `TAGEPredictor.predict`: examine tables
`k-1, k-2, ..., 0` (so from the longest history down when started at
`num_tables`) and return the first table id and slot index whose stored tag
equals the freshly computed tag, `none` when no tagged table matches. -/
def tageFindProvider (s : TAGEState) (address : Nat) : Nat → Option (Nat × Nat)
  | 0 => none
  | k + 1 =>
    let index := tageGetIndex s address k
    let tag := tageGetTag s address (s.history_lengths.getD k 0)
    if (tageEntry s k index).tag = tag then some (k, index)
    else tageFindProvider s address k

/-- The `TAGEPredictor.predict` method in state-passing form: the matching
table's counter decides, otherwise the base table's counter. -/
def tagePredictS (s : TAGEState) (address : Nat) : Outcome × TAGEState :=
  match tageFindProvider s address s.num_tables with
  | some (i, index) =>
    ((if 2 ≤ (tageEntry s i index).counter then Outcome.taken else Outcome.not_taken), s)
  | none =>
    ((if 2 ≤ s.base_table.getD (tageGetBaseIndex s address) 0 then Outcome.taken
      else Outcome.not_taken), s)

/-- The provider scan at the top of `TAGEPredictor.update`, which the source
spells out a second time with the same loop bounds and the same first-match
break. -/
def tageUpdateScan (s : TAGEState) (address : Nat) : Nat → Option (Nat × Nat)
  | 0 => none
  | k + 1 =>
    let index := tageGetIndex s address k
    let tag := tageGetTag s address (s.history_lengths.getD k 0)
    if (tageEntry s k index).tag = tag then some (k, index)
    else tageUpdateScan s address k

/-- Overwrite slot `self.tagged_tables[i][index]` with `e`. -/
def tageSetEntry (s : TAGEState) (i index : Nat) (e : TaggedEntry) : TAGEState :=
  { s with
    tagged_tables :=
      s.tagged_tables.set i ((s.tagged_tables.getD i []).set index e) }

/-- The misprediction allocation loop of `TAGEPredictor.update`:
`for i in range(num_tables - 1, provider_table, -1)` with `lo` standing for
`provider_table + 1` (0 when the base was the provider); started with fuel
`num_tables`, iteration `k + 1` examines table `k` while `k ≥ lo`, and the
first table whose slot has useful bit 0 is overwritten with a fresh entry
biased toward the actual outcome, tagged with the freshly computed tag and
useful bit 0. -/
def tageAlloc (s : TAGEState) (address : Nat) (actual_outcome : Outcome) (lo : Nat) :
    Nat → TAGEState
  | 0 => s
  | k + 1 =>
    if k + 1 ≤ lo then s
    else
      let index := tageGetIndex s address k
      let tag := tageGetTag s address (s.history_lengths.getD k 0)
      if (tageEntry s k index).useful = 0 then
        tageSetEntry s k index
          (TaggedEntry.mk (if actual_outcome = Outcome.taken then 2 else 1) tag 0)
      else tageAlloc s address actual_outcome lo k

/-- The `TAGEPredictor.update` method: find the provider with the same scan as
`predict`, score correctness against its (or the base's) prediction, move the
provider's (or base's) saturating counter, allocate on misprediction in a
strictly-longer-history table with a clear useful bit, then shift the global
history when `max_history > 0`. -/
def tageUpdate (s : TAGEState) (address : Nat) (actual_outcome : Outcome) : TAGEState :=
  let provider := tageUpdateScan s address s.num_tables
  let prediction :=
    match provider with
    | some (i, index) =>
      if 2 ≤ (tageEntry s i index).counter then Outcome.taken else Outcome.not_taken
    | none =>
      if 2 ≤ s.base_table.getD (tageGetBaseIndex s address) 0 then Outcome.taken
      else Outcome.not_taken
  let s1 : TAGEState :=
    { s with
      total_predictions := s.total_predictions + 1
      correct_predictions :=
        s.correct_predictions + (if prediction = actual_outcome then 1 else 0) }
  let s2 : TAGEState :=
    match provider with
    | some (i, index) =>
      let e := tageEntry s1 i index
      tageSetEntry s1 i index
        (TaggedEntry.mk
          (if actual_outcome = Outcome.taken then min 3 (e.counter + 1)
           else max 0 (e.counter - 1))
          e.tag e.useful)
    | none =>
      let bi := tageGetBaseIndex s1 address
      let c := s1.base_table.getD bi 0
      { s1 with
        base_table :=
          s1.base_table.set bi
            (if actual_outcome = Outcome.taken then min 3 (c + 1) else max 0 (c - 1)) }
  let s3 :=
    if prediction ≠ actual_outcome then
      tageAlloc s2 address actual_outcome
        (match provider with
         | some (i, _) => i + 1
         | none => 0)
        s2.num_tables
    else s2
  if 0 < s3.max_history then
    { s3 with
      global_history :=
        ((s3.global_history <<< 1) |||
            (if actual_outcome = Outcome.taken then 1 else 0)) &&&
          ((1 <<< s3.max_history) - 1) }
  else s3

/-- The `TAGEPredictor.reset` method: fresh base table, every tagged table
refilled with `[1, 0, 0]` entries (the outer list always has `num_tables`
slots, so the per-slot loop of the source amounts to a full refill), zero
history and statistics. -/
def tageReset (s : TAGEState) : TAGEState :=
  { s with
    correct_predictions := 0
    total_predictions := 0
    base_table := List.replicate s.base_table_size 1
    tagged_tables :=
      List.replicate s.num_tables
        (List.replicate s.base_table_size (TaggedEntry.mk 1 0 0))
    global_history := 0 }

/-- An operation of the predictor contract, for reachability statements. -/
inductive TAGEOp where
  | predict : Nat → TAGEOp
  | update : Nat → Outcome → TAGEOp
  | reset : TAGEOp
deriving DecidableEq, Repr

/-- One contract operation on a TAGE predictor. -/
def tageStep (s : TAGEState) : TAGEOp → TAGEState
  | TAGEOp.predict a => (tagePredictS s a).2
  | TAGEOp.update a o => tageUpdate s a o
  | TAGEOp.reset => tageReset s

/-- A sequence of contract operations on a TAGE predictor. -/
def tageRun (s : TAGEState) (ops : List TAGEOp) : TAGEState :=
  ops.foldl tageStep s

/-- A sequence of `update` calls on a TAGE predictor. -/
def tageRunUpdates (s : TAGEState) (ops : List (Nat × Outcome)) : TAGEState :=
  ops.foldl (fun s1 ao => tageUpdate s1 ao.1 ao.2) s

/-- All counters of a 2-bit saturating counter table lie in `[0, 3]`. -/
def countersInRange (l : List Int) : Prop :=
  ∀ c ∈ l, 0 ≤ c ∧ c ≤ 3

/-- All TAGE counters — the base table and every tagged entry — lie in `[0, 3]`. -/
def tageCountersInRange (s : TAGEState) : Prop :=
  countersInRange s.base_table ∧
    ∀ t ∈ s.tagged_tables, ∀ e ∈ t, 0 ≤ e.counter ∧ e.counter ≤ 3

/-- Every tagged-table entry has useful bit 0. -/
def tageUsefulAllZero (s : TAGEState) : Prop :=
  ∀ t ∈ s.tagged_tables, ∀ e ∈ t, e.useful = 0

/-- Table `i` matches for `address` in state `s`: the stored tag of its
indexed slot equals the freshly computed tag for that table. -/
def tageTagMatch (s : TAGEState) (address i : Nat) : Prop :=
  (tageEntry s i (tageGetIndex s address i)).tag =
    tageGetTag s address (s.history_lengths.getD i 0)

/-- The prediction read off table `i`'s indexed slot. -/
def tageProviderPred (s : TAGEState) (address i : Nat) : Outcome :=
  if 2 ≤ (tageEntry s i (tageGetIndex s address i)).counter then Outcome.taken
  else Outcome.not_taken

/-- The prediction read off the base table. -/
def tageBasePred (s : TAGEState) (address : Nat) : Outcome :=
  if 2 ≤ s.base_table.getD (tageGetBaseIndex s address) 0 then Outcome.taken
  else Outcome.not_taken

/-- The default TAGE configuration of the source with a chosen global history,
for the index/tag collision statements. -/
def tageWithHistory (h : Nat) : TAGEState :=
  { tageInit 4 1024 with global_history := h }

/-! ### Helper lemmas -/

/-- Floor modulus by a positive modulus lands in `[0, b)` (so Python `%` with a
positive table size yields a valid non-negative index). -/
theorem fmod_bounds (a b : Int) (hb : 0 < b) : 0 ≤ a.fmod b ∧ a.fmod b < b := by
  rw [Int.fmod_eq_emod a (le_of_lt hb)]
  exact ⟨Int.emod_nonneg a (ne_of_gt hb), Int.emod_lt_of_pos a hb⟩

/-- A `getD` read is a list member or the default. -/
theorem getD_cases (l : List α) (n : Nat) (d : α) : l.getD n d ∈ l ∨ l.getD n d = d := by
  rw [List.getD_eq_getElem?_getD]
  cases h : l[n]? with
  | none => right; rfl
  | some a => left; exact List.getElem?_mem h

/-- Reading a slot of a replicated list inside its bounds. -/
theorem pyGet_replicate (n : Nat) (c : α) (i : Int) (h0 : 0 ≤ i) (hn : i < (n : Int)) :
    pyGet (List.replicate n c) i = some c := by
  have hj : ¬ i < 0 := not_lt.mpr h0
  have hlt : i.toNat < n := by omega
  simp only [pyGet, pyIdx, List.length_replicate, hj, if_false, Option.bind]
  rw [if_pos ⟨h0, by exact_mod_cast hn⟩]
  simp [List.getElem?_replicate, hlt]

/-- Python reads on the empty list always raise. -/
theorem pyGet_nil (i : Int) : pyGet ([] : List α) i = none := by
  simp [pyGet, pyIdx]

/-- A successful Python read returns a member of the list. -/
theorem pyGet_mem {l : List α} {i : Int} {a : α} (h : pyGet l i = some a) : a ∈ l := by
  unfold pyGet at h
  cases hidx : pyIdx l i with
  | none => rw [hidx] at h; simp at h
  | some n =>
    rw [hidx] at h
    simp only [Option.bind] at h
    exact List.getElem?_mem h

/-- A successful Python write produces a `List.set` of the original list. -/
theorem pySet_some {l : List α} {i : Int} {v : α} {t : List α} (h : pySet l i v = some t) :
    ∃ n, t = l.set n v := by
  unfold pySet at h
  cases hidx : pyIdx l i with
  | none => rw [hidx] at h; simp at h
  | some n =>
    rw [hidx] at h
    simp only [Option.map] at h
    exact ⟨n, (Option.some_inj.mp h).symm⟩

/-- The construction-time counter tables consist of 1s, which are in range. -/
theorem countersInRange_replicate_one (n : Nat) : countersInRange (List.replicate n 1) := by
  intro c hc
  have := List.eq_of_mem_replicate hc
  omega

/-- A saturating move keeps a counter that starts in `[0, 3]` inside `[0, 3]`. -/
theorem saturate_mem (c : Int) (o : Outcome) (h0 : 0 ≤ c) (h3 : c ≤ 3) :
    0 ≤ (if o = Outcome.taken then min 3 (c + 1) else max 0 (c - 1)) ∧
      (if o = Outcome.taken then min 3 (c + 1) else max 0 (c - 1)) ≤ 3 := by
  cases o <;> simp <;> omega

/-! ### Claim theorems -/

/-- C7: `get_accuracy` returns `correct/total` when `total > 0` and exactly 0
when `total = 0`, in particular on freshly constructed and freshly reset
predictors of every variant; no division-by-zero error can occur. -/
theorem claim_C7 :
    (∀ c t : Nat, 0 < t → getAccuracy c t = (c : ℚ) / (t : ℚ)) ∧
    (∀ c t : Nat, t = 0 → getAccuracy c t = 0) ∧
    (∀ sz : Int,
      getAccuracy (bimodalInit sz).correct_predictions (bimodalInit sz).total_predictions = 0) ∧
    (∀ s : BimodalState,
      getAccuracy (bimodalReset s).correct_predictions (bimodalReset s).total_predictions = 0) ∧
    (∀ s : GShareState,
      getAccuracy (gshareReset s).correct_predictions (gshareReset s).total_predictions = 0) ∧
    (∀ s : PerceptronState,
      getAccuracy (perceptronReset s).correct_predictions
        (perceptronReset s).total_predictions = 0) ∧
    (∀ s : TAGEState,
      getAccuracy (tageReset s).correct_predictions (tageReset s).total_predictions = 0) := by
  refine ⟨fun c t ht => ?_, fun c t ht => ?_, fun sz => rfl, fun s => rfl, fun s => rfl,
    fun s => rfl, fun s => rfl⟩
  · rw [getAccuracy, if_neg (by omega)]
  · rw [getAccuracy, if_pos ht]

/-- Witness for C7 at a concrete counter pair. -/
theorem claim_C7_witness : getAccuracy 1 2 = ((1 : Nat) : ℚ) / ((2 : Nat) : ℚ) :=
  claim_C7.1 1 2 (by decide)

/-- C6: `predict` mutates no predictor state in any variant — the state
component returned by the state-passing embedding is the receiver itself —
and repeated calls between updates return the same outcome. -/
theorem claim_C6 :
    (∀ (s : StaticState) (a : PyAddr),
      (alwaysTakenPredictS s a).2 = s ∧ (neverTakenPredictS s a).2 = s) ∧
    (∀ (s : BimodalState) (a : PyAddr) (p : Outcome × BimodalState),
      bimodalPredictS s a = some p → p.2 = s ∧ bimodalPredictS p.2 a = some p) ∧
    (∀ (s : GShareState) (a : PyAddr) (p : Outcome × GShareState),
      gsharePredictS s a = some p → p.2 = s ∧ gsharePredictS p.2 a = some p) ∧
    (∀ (s : PerceptronState) (a : Nat),
      (perceptronPredictS s a).2 = s ∧
        perceptronPredictS ((perceptronPredictS s a).2) a = perceptronPredictS s a) ∧
    (∀ (s : TAGEState) (a : Nat),
      (tagePredictS s a).2 = s ∧
        tagePredictS ((tagePredictS s a).2) a = tagePredictS s a) := by
  have hbim : ∀ (s : BimodalState) (a : PyAddr) (p : Outcome × BimodalState),
      bimodalPredictS s a = some p → p.2 = s := by
    intro s a p h
    unfold bimodalPredictS at h
    cases hidx : bimodalGetIndex s a with
    | none => rw [hidx] at h; simp at h
    | some index =>
      rw [hidx] at h
      simp only [Option.bind] at h
      cases hg : pyGet s.table index with
      | none => rw [hg] at h; simp at h
      | some c =>
        rw [hg] at h
        simp only [Option.map] at h
        have := Option.some_inj.mp h
        rw [← this]
  have hgs : ∀ (s : GShareState) (a : PyAddr) (p : Outcome × GShareState),
      gsharePredictS s a = some p → p.2 = s := by
    intro s a p h
    unfold gsharePredictS at h
    cases hidx : gshareGetIndex s a with
    | none => rw [hidx] at h; simp at h
    | some index =>
      rw [hidx] at h
      simp only [Option.bind] at h
      cases hg : pyGet s.table index with
      | none => rw [hg] at h; simp at h
      | some c =>
        rw [hg] at h
        simp only [Option.map] at h
        have := Option.some_inj.mp h
        rw [← this]
  have htage : ∀ (s : TAGEState) (a : Nat), (tagePredictS s a).2 = s := by
    intro s a
    unfold tagePredictS
    cases h : tageFindProvider s a s.num_tables with
    | none => rfl
    | some p => cases p; rfl
  refine ⟨fun s a => ⟨rfl, rfl⟩, ?_, ?_, fun s a => ⟨rfl, rfl⟩, fun s a => ?_⟩
  · intro s a p h
    have h2 := hbim s a p h
    exact ⟨h2, by rw [h2]; exact h⟩
  · intro s a p h
    have h2 := hgs s a p h
    exact ⟨h2, by rw [h2]; exact h⟩
  · have h2 := htage s a
    exact ⟨h2, by rw [h2]⟩

/-- Witness for C6 at a concrete Bimodal state and address. -/
theorem claim_C6_witness :
    (Outcome.not_taken, bimodalInit 4).2 = bimodalInit 4 ∧
      bimodalPredictS (Outcome.not_taken, bimodalInit 4).2 (PyAddr.int 1) =
        some (Outcome.not_taken, bimodalInit 4) :=
  claim_C6.2.1 (bimodalInit 4) (PyAddr.int 1) (Outcome.not_taken, bimodalInit 4) (by decide)

/-- C5 (code bug): the `BimodalPredictor` constructor and `reset` fill the
table with counter value 1, which the `>= 2` rule reads as predict-not-taken:
on a freshly constructed or freshly reset Bimodal predictor, `predict` returns
`not_taken` for every address, contradicting the intended mid/weak-taken
initialization (the source's own comment calls state 1 weakly taken, and the
functional variant in `prediction.py` uses 2 for an initial taken
prediction). -/
theorem claim_C5 : ∀ (sz a : Int), 0 < sz →
    bimodalPredictS (bimodalInit sz) (PyAddr.int a) =
      some (Outcome.not_taken, bimodalInit sz) ∧
    ∀ s : BimodalState, s.table_size = sz →
      bimodalPredictS (bimodalReset s) (PyAddr.int a) =
        some (Outcome.not_taken, bimodalReset s) := by
  intro sz a hsz
  have key : ∀ st : BimodalState, st.table_size = sz →
      st.table = List.replicate sz.toNat 1 →
      bimodalPredictS st (PyAddr.int a) = some (Outcome.not_taken, st) := by
    intro st hstsz htab
    have hmod := fmod_bounds a sz hsz
    have hidx : bimodalGetIndex st (PyAddr.int a) = some (a.fmod sz) := by
      unfold bimodalGetIndex
      simp only [addrVal?, Option.some_bind, pymod, hstsz]
      rw [if_neg (by omega)]
    have hget : pyGet st.table (a.fmod sz) = some 1 := by
      rw [htab]
      exact pyGet_replicate _ _ _ hmod.1
        (by rw [Int.toNat_of_nonneg (le_of_lt hsz)]; exact hmod.2)
    unfold bimodalPredictS
    rw [hidx]
    simp only [Option.some_bind]
    rw [hget]
    simp only [Option.map_some']
    rw [if_neg (by omega)]
  refine ⟨key _ rfl rfl, fun s hs => key _ hs ?_⟩
  unfold bimodalReset
  rw [hs]

/-- Witness for C5 on the concrete fresh predictor of size 4 at address 7. -/
theorem claim_C5_witness :
    bimodalPredictS (bimodalInit 4) (PyAddr.int 7) =
      some (Outcome.not_taken, bimodalInit 4) :=
  (claim_C5 4 7 (by decide)).1

/-- C8 counterexample: constructing a Bimodal predictor with table size 0 does
not fail — it silently produces a state with an empty table — and the failure
surfaces only at the later `predict` call (modelled `none`: the
`ZeroDivisionError` of `address % 0`); likewise a GShare predictor built with
a zero-width history is accepted and predicts without error. -/
theorem claim_C8_counterexample :
    (bimodalInit 0).table = [] ∧
    bimodalPredictS (bimodalInit 0) (PyAddr.int 5) = none ∧
    gsharePredictS (gshareInit 0 4) (PyAddr.int 1) =
      some (Outcome.not_taken, gshareInit 0 4) := by
  decide

/-- C8 (amended): construction performs no validation at all — a non-positive
table size is accepted silently and yields an empty table, and the
configuration failure is deferred to every later `predict`/`update` call,
which raises (`none`) instead. -/
theorem claim_C8 : ∀ (sz : Int) (a : PyAddr), sz ≤ 0 →
    (bimodalInit sz).table = [] ∧
    bimodalPredictS (bimodalInit sz) a = none ∧
    bimodalUpdate (bimodalInit sz) a Outcome.taken = none := by
  intro sz a hsz
  have htab : (bimodalInit sz).table = [] := by
    unfold bimodalInit
    simp [Int.toNat_of_nonpos hsz]
  refine ⟨htab, ?_, ?_⟩
  · unfold bimodalPredictS
    cases h : bimodalGetIndex (bimodalInit sz) a with
    | none => rfl
    | some idx =>
      simp only [Option.some_bind]
      rw [htab, pyGet_nil]
      rfl
  · unfold bimodalUpdate
    cases h : bimodalGetIndex (bimodalInit sz) a with
    | none => rfl
    | some idx =>
      simp only [Option.some_bind]
      rw [htab, pyGet_nil]
      rfl

/-- Witness for C8 at the concrete size 0 and address 5. -/
theorem claim_C8_witness :
    (bimodalInit 0).table = [] ∧
    bimodalPredictS (bimodalInit 0) (PyAddr.int 5) = none ∧
    bimodalUpdate (bimodalInit 0) (PyAddr.int 5) Outcome.taken = none :=
  claim_C8 0 (PyAddr.int 5) (by decide)

/-- C4 counterexample: on the token `foo` — which parses as neither a
hexadecimal-prefixed nor a decimal numeral — the address hashing of both the
Bimodal and the GShare predictor raises a `ValueError` (modelled `none`):
there is no string-hash fallback in `predictors.py`. -/
theorem claim_C4_counterexample :
    bimodalGetIndex (bimodalInit 1024) (PyAddr.str ['f', 'o', 'o']) = none ∧
    gshareGetIndex (gshareInit 10 1024) (PyAddr.str ['f', 'o', 'o']) = none := by
  decide

/-- C4 (amended): for tokens that do parse as a hexadecimal-prefixed or
decimal numeral (and for int addresses), the hashing of the Bimodal and
GShare predictors returns a non-negative key below the table size whenever
the table size is positive; but a token that parses as neither propagates a
`ValueError` (`none`) — it does not fall through to any string-hash
fallback. -/
theorem claim_C4 :
    (∀ (s : BimodalState) (a : PyAddr) (v : Int), addrVal? a = some v →
      0 < s.table_size →
      ∃ k, bimodalGetIndex s a = some k ∧ 0 ≤ k ∧ k < s.table_size) ∧
    (∀ (g : GShareState) (a : PyAddr) (v : Int), addrVal? a = some v →
      0 < g.table_size →
      ∃ k, gshareGetIndex g a = some k ∧ 0 ≤ k ∧ k < g.table_size) ∧
    (∀ (s : BimodalState) (a : PyAddr), addrVal? a = none →
      bimodalGetIndex s a = none) ∧
    (∀ (g : GShareState) (a : PyAddr), addrVal? a = none →
      gshareGetIndex g a = none) := by
  refine ⟨?_, ?_, ?_, ?_⟩
  · intro s a v hv hsz
    refine ⟨v.fmod s.table_size, ?_, fmod_bounds v s.table_size hsz⟩
    unfold bimodalGetIndex
    rw [hv]
    simp only [Option.some_bind, pymod]
    rw [if_neg (by omega)]
  · intro g a v hv hsz
    refine ⟨(intXor v g.history).fmod g.table_size, ?_,
      fmod_bounds (intXor v g.history) g.table_size hsz⟩
    unfold gshareGetIndex
    rw [hv]
    simp only [Option.some_bind, pymod]
    rw [if_neg (by omega)]
  · intro s a hv
    unfold bimodalGetIndex
    rw [hv]
    rfl
  · intro g a hv
    unfold gshareGetIndex
    rw [hv]
    rfl

/-- Witness for C4 on the concrete decimal token `12`. -/
theorem claim_C4_witness :
    ∃ k, bimodalGetIndex (bimodalInit 4) (PyAddr.str ['1', '2']) = some k ∧
      0 ≤ k ∧ k < (bimodalInit 4).table_size :=
  claim_C4.1 (bimodalInit 4) (PyAddr.str ['1', '2']) 12 (by decide) (by decide)

/-- With the default configuration (table size 1024, tag space 256, and
256 dividing 1024), two (address, history) pairs that collide on a tagged
table's index necessarily collide on its tag as well. -/
theorem tage_index_collision_forces_tag_collision (a1 h1 a2 h2 i : Nat)
    (hidx : tageGetIndex (tageWithHistory h1) a1 i = tageGetIndex (tageWithHistory h2) a2 i) :
    tageGetTag (tageWithHistory h1) a1 ((tageWithHistory h1).history_lengths.getD i 0) =
      tageGetTag (tageWithHistory h2) a2 ((tageWithHistory h2).history_lengths.getD i 0) := by
  have hdvd : (256 : Nat) ∣ 1024 := ⟨4, rfl⟩
  have e1 : tageGetIndex (tageWithHistory h1) a1 i =
      (a1 ^^^ (h1 &&& ((1 <<< ((tageWithHistory h1).history_lengths.getD i 0)) - 1))) % 1024 :=
    rfl
  have e2 : tageGetIndex (tageWithHistory h2) a2 i =
      (a2 ^^^ (h2 &&& ((1 <<< ((tageWithHistory h1).history_lengths.getD i 0)) - 1))) % 1024 :=
    rfl
  have t1 : tageGetTag (tageWithHistory h1) a1 ((tageWithHistory h1).history_lengths.getD i 0) =
      (a1 ^^^ (h1 &&& ((1 <<< ((tageWithHistory h1).history_lengths.getD i 0)) - 1))) % 256 :=
    rfl
  have t2 : tageGetTag (tageWithHistory h2) a2 ((tageWithHistory h2).history_lengths.getD i 0) =
      (a2 ^^^ (h2 &&& ((1 <<< ((tageWithHistory h1).history_lengths.getD i 0)) - 1))) % 256 :=
    rfl
  rw [e1, e2] at hidx
  rw [t1, t2]
  have step := congrArg (fun v => v % 256) hidx
  simpa [Nat.mod_mod_of_dvd _ hdvd] using step

/-- C9 counterexample: under the default configuration there are no two
(address, history) pairs producing the same index for one of the four tagged
tables but different tags — an index collision forces a tag collision, because
the tag modulus 256 divides the default index modulus 1024. -/
theorem claim_C9_counterexample :
    ¬ ∃ (a1 h1 a2 h2 i : Nat), i < 4 ∧
      tageGetIndex (tageWithHistory h1) a1 i = tageGetIndex (tageWithHistory h2) a2 i ∧
      tageGetTag (tageWithHistory h1) a1 ((tageWithHistory h1).history_lengths.getD i 0) ≠
        tageGetTag (tageWithHistory h2) a2 ((tageWithHistory h2).history_lengths.getD i 0) := by
  rintro ⟨a1, h1, a2, h2, i, _, hidx, htag⟩
  exact htag (tage_index_collision_forces_tag_collision a1 h1 a2 h2 i hidx)

/-- C9 (amended): per-table index and tag are both the XOR of the address with
the masked global history, reduced with the two different moduli (table size
and 256); under the default configuration an index collision implies a tag
collision (256 divides 1024), and the separation between the two reductions
holds only in the other direction — the same tag can occur at different
indices. -/
theorem claim_C9 :
    (∀ (a1 h1 a2 h2 i : Nat), i < 4 →
      tageGetIndex (tageWithHistory h1) a1 i = tageGetIndex (tageWithHistory h2) a2 i →
      tageGetTag (tageWithHistory h1) a1 ((tageWithHistory h1).history_lengths.getD i 0) =
        tageGetTag (tageWithHistory h2) a2 ((tageWithHistory h2).history_lengths.getD i 0)) ∧
    (∃ (a1 h1 a2 h2 i : Nat), i < 4 ∧
      tageGetTag (tageWithHistory h1) a1 ((tageWithHistory h1).history_lengths.getD i 0) =
        tageGetTag (tageWithHistory h2) a2 ((tageWithHistory h2).history_lengths.getD i 0) ∧
      tageGetIndex (tageWithHistory h1) a1 i ≠ tageGetIndex (tageWithHistory h2) a2 i) := by
  constructor
  · intro a1 h1 a2 h2 i _ hidx
    exact tage_index_collision_forces_tag_collision a1 h1 a2 h2 i hidx
  · exact ⟨0, 0, 256, 0, 0, by decide, by decide, by decide⟩

/-- Witness for C9 at the concrete index-colliding pairs (0, 0) and (1024, 0). -/
theorem claim_C9_witness :
    tageGetTag (tageWithHistory 0) 0 ((tageWithHistory 0).history_lengths.getD 0 0) =
      tageGetTag (tageWithHistory 0) 1024 ((tageWithHistory 0).history_lengths.getD 0 0) :=
  claim_C9.1 0 0 1024 0 0 (by decide) (by decide)

/-- Slot `k` of the rebuilt weight vector: incremented by `y * x[j+p]` exactly
when its absolute position is at most `H`, unchanged beyond. -/
theorem trainWeights_getD (hist H : Nat) (y : Int) :
    ∀ (w : List Int) (j p : Nat), p < w.length →
      (trainWeights hist H y j w).getD p 0 =
        if j + p ≤ H then w.getD p 0 + y * xFeat hist (j + p) else w.getD p 0 := by
  intro w
  induction w with
  | nil => intro j p hp; simp at hp
  | cons a ws ih =>
    intro j p hp
    unfold trainWeights
    by_cases hj : H + 1 ≤ j
    · rw [if_pos hj, if_neg (by omega)]
    · rw [if_neg hj]
      cases p with
      | zero =>
        simp only [List.getD_cons_zero, Nat.add_zero]
        rw [if_pos (by omega)]
      | succ p =>
        simp only [List.getD_cons_succ]
        have hp2 : p < ws.length := by
          simp only [List.length_cons] at hp
          omega
        rw [ih (j + 1) p hp2]
        have hjp : j + 1 + p = j + (p + 1) := by omega
        rw [hjp]

/-- Writing a slot and reading it back with `getD`. -/
theorem getD_set_self (l : List α) (n : Nat) (v d : α) (h : n < l.length) :
    (l.set n v).getD n d = v := by
  rw [List.getD_eq_getElem?_getD, List.getElem?_set_self h]
  rfl

/-- C3: in the perceptron training rule (bipolar features `x[0] = 1`,
`x[k+1] = ±1` from history bit `k`; `y = ±1` from the actual outcome),
whenever `y * output ≤ threshold` every weight `k` of the indexed vector is
incremented by exactly `y * x[k]`, and no weight changes when
`y * output > threshold`. -/
theorem claim_C3 : ∀ (s : PerceptronState) (address : Nat) (o : Outcome),
    0 < s.table_size → s.weights.length = s.table_size →
    (((perceptronY o : ℚ) * ((perceptronComputeOutput s (address % s.table_size) : Int) : ℚ) ≤
        s.threshold) →
      ∀ k, k ≤ s.history_length →
        k < (s.weights.getD (address % s.table_size) []).length →
        ((perceptronUpdate s address o).weights.getD (address % s.table_size) []).getD k 0 =
          (s.weights.getD (address % s.table_size) []).getD k 0 +
            perceptronY o * xFeat s.history k) ∧
    ((s.threshold <
        (perceptronY o : ℚ) * ((perceptronComputeOutput s (address % s.table_size) : Int) : ℚ)) →
      (perceptronUpdate s address o).weights = s.weights) := by
  intro s address o hts hwl
  have hidx : address % s.table_size < s.weights.length := by
    rw [hwl]
    exact Nat.mod_lt _ hts
  constructor
  · intro hcond k hk hklen
    simp only [perceptronUpdate]
    rw [if_pos hcond]
    simp only
    rw [getD_set_self _ _ _ _ hidx]
    rw [trainWeights_getD s.history s.history_length (perceptronY o)
      (s.weights.getD (address % s.table_size) []) 0 k hklen]
    simp only [Nat.zero_add]
    rw [if_pos hk]
  · intro hcond
    simp only [perceptronUpdate]
    rw [if_neg (not_le.mpr hcond)]

/-- Witness for C3: one update of a fresh 2-bit-history perceptron with
`y = +1` and pre-update output 0 adds exactly `x[1]` to weight 1. -/
theorem claim_C3_witness :
    ((perceptronUpdate (perceptronInit 2 2 (3 / 2)) 0 Outcome.taken).weights.getD
        (0 % (perceptronInit 2 2 (3 / 2)).table_size) []).getD 1 0 =
      ((perceptronInit 2 2 (3 / 2)).weights.getD
          (0 % (perceptronInit 2 2 (3 / 2)).table_size) []).getD 1 0 +
        perceptronY Outcome.taken * xFeat (perceptronInit 2 2 (3 / 2)).history 1 :=
  (claim_C3 (perceptronInit 2 2 (3 / 2)) 0 Outcome.taken (by decide) (by decide)).1
    (by
      have h1 : perceptronComputeOutput (perceptronInit 2 2 (3 / 2))
          (0 % (perceptronInit 2 2 (3 / 2)).table_size) = 0 := by decide
      have h2 : perceptronY Outcome.taken = 1 := by decide
      rw [h1, h2]
      norm_num [perceptronInit])
    1 (by decide) (by decide)

/-- A counter table stays in range after writing an in-range value. -/
theorem countersInRange_set {l : List Int} (hinv : countersInRange l) (n : Nat) {v : Int}
    (hv : 0 ≤ v ∧ v ≤ 3) : countersInRange (l.set n v) := by
  intro x hx
  rcases List.mem_or_eq_of_mem_set hx with h | h
  · exact hinv x h
  · rw [h]; exact hv

/-- A `getD` read of an in-range counter table is in `[0, 3]` (the default 0
also is). -/
theorem countersInRange_getD {l : List Int} (hinv : countersInRange l) (n : Nat) :
    0 ≤ l.getD n 0 ∧ l.getD n 0 ≤ 3 := by
  rcases getD_cases l n 0 with h | h
  · exact hinv _ h
  · rw [h]; exact ⟨le_refl 0, by norm_num⟩

/-- Bimodal `update` preserves the counter-range invariant. -/
theorem bimodalUpdate_counters {s s1 : BimodalState} {a : PyAddr} {o : Outcome}
    (hinv : countersInRange s.table) (h : bimodalUpdate s a o = some s1) :
    countersInRange s1.table := by
  unfold bimodalUpdate at h
  cases hidx : bimodalGetIndex s a with
  | none => rw [hidx] at h; simp at h
  | some index =>
    rw [hidx] at h
    simp only [Option.some_bind] at h
    cases hget : pyGet s.table index with
    | none => rw [hget] at h; simp at h
    | some c =>
      rw [hget] at h
      simp only [Option.some_bind] at h
      cases hset : pySet s.table index
          (if o = Outcome.taken then min 3 (c + 1) else max 0 (c - 1)) with
      | none => rw [hset] at h; simp at h
      | some t =>
        rw [hset] at h
        simp only [Option.map_some', Option.some_inj] at h
        obtain ⟨n, hn⟩ := pySet_some hset
        have hc := hinv c (pyGet_mem hget)
        have hs1 : s1.table = t := by rw [← h]
        rw [hs1, hn]
        exact countersInRange_set hinv n (saturate_mem c o hc.1 hc.2)

/-- GShare `update` preserves the counter-range invariant. -/
theorem gshareUpdate_counters {s s1 : GShareState} {a : PyAddr} {o : Outcome}
    (hinv : countersInRange s.table) (h : gshareUpdate s a o = some s1) :
    countersInRange s1.table := by
  unfold gshareUpdate at h
  cases hidx : gshareGetIndex s a with
  | none => rw [hidx] at h; simp at h
  | some index =>
    rw [hidx] at h
    simp only [Option.some_bind] at h
    cases hget : pyGet s.table index with
    | none => rw [hget] at h; simp at h
    | some c =>
      rw [hget] at h
      simp only [Option.some_bind] at h
      cases hset : pySet s.table index
          (if o = Outcome.taken then min 3 (c + 1) else max 0 (c - 1)) with
      | none => rw [hset] at h; simp at h
      | some t =>
        rw [hset] at h
        simp only [Option.map_some', Option.some_inj] at h
        obtain ⟨n, hn⟩ := pySet_some hset
        have hc := hinv c (pyGet_mem hget)
        have hs1 : s1.table = t := by rw [← h]
        rw [hs1, hn]
        exact countersInRange_set hinv n (saturate_mem c o hc.1 hc.2)

/-- A run of Bimodal updates preserves the counter-range invariant. -/
theorem bimodalRunUpdates_counters :
    ∀ (ops : List (PyAddr × Outcome)) (s s1 : BimodalState),
      countersInRange s.table → bimodalRunUpdates s ops = some s1 →
      countersInRange s1.table := by
  intro ops
  induction ops with
  | nil =>
    intro s s1 hinv h
    unfold bimodalRunUpdates at h
    rw [← Option.some_inj.mp h]
    exact hinv
  | cons p rest ih =>
    intro s s1 hinv h
    obtain ⟨a, o⟩ := p
    unfold bimodalRunUpdates at h
    cases hupd : bimodalUpdate s a o with
    | none => rw [hupd] at h; simp at h
    | some s2 =>
      rw [hupd] at h
      simp only [Option.some_bind] at h
      exact ih s2 s1 (bimodalUpdate_counters hinv hupd) h

/-- A run of GShare updates preserves the counter-range invariant. -/
theorem gshareRunUpdates_counters :
    ∀ (ops : List (PyAddr × Outcome)) (s s1 : GShareState),
      countersInRange s.table → gshareRunUpdates s ops = some s1 →
      countersInRange s1.table := by
  intro ops
  induction ops with
  | nil =>
    intro s s1 hinv h
    unfold gshareRunUpdates at h
    rw [← Option.some_inj.mp h]
    exact hinv
  | cons p rest ih =>
    intro s s1 hinv h
    obtain ⟨a, o⟩ := p
    unfold gshareRunUpdates at h
    cases hupd : gshareUpdate s a o with
    | none => rw [hupd] at h; simp at h
    | some s2 =>
      rw [hupd] at h
      simp only [Option.some_bind] at h
      exact ih s2 s1 (gshareUpdate_counters hinv hupd) h

/-- Any tagged entry read (in range or default) has its counter in `[0, 3]`
when the TAGE invariant holds. -/
theorem tageEntry_counter_range {s : TAGEState} (hinv : tageCountersInRange s) (i idx : Nat) :
    0 ≤ (tageEntry s i idx).counter ∧ (tageEntry s i idx).counter ≤ 3 := by
  unfold tageEntry
  rcases getD_cases s.tagged_tables i [] with ht | ht
  · rcases getD_cases (s.tagged_tables.getD i []) idx (TaggedEntry.mk 0 0 0) with he | he
    · exact hinv.2 _ ht _ he
    · rw [he]; exact ⟨le_refl 0, by norm_num⟩
  · rw [ht]
    simp only [List.getD]
    exact ⟨le_refl 0, by norm_num⟩

/-- Writing one tagged entry with an in-range counter preserves the TAGE
counter invariant. -/
theorem tageSetEntry_counters {s : TAGEState} {i idx : Nat} {e : TaggedEntry}
    (hinv : tageCountersInRange s) (he : 0 ≤ e.counter ∧ e.counter ≤ 3) :
    tageCountersInRange (tageSetEntry s i idx e) := by
  refine ⟨hinv.1, ?_⟩
  intro t ht e2 he2
  rcases List.mem_or_eq_of_mem_set ht with htm | hteq
  · exact hinv.2 t htm e2 he2
  · rw [hteq] at he2
    rcases List.mem_or_eq_of_mem_set he2 with hem | heeq
    · rcases getD_cases s.tagged_tables i [] with hm | hnil
      · exact hinv.2 _ hm e2 hem
      · rw [hnil] at hem; simp at hem
    · rw [heeq]; exact he

/-- The TAGE counter invariant only looks at the two tables. -/
theorem tageCountersInRange_of_fields {s1 s2 : TAGEState}
    (hb : s1.base_table = s2.base_table) (ht : s1.tagged_tables = s2.tagged_tables)
    (h : tageCountersInRange s2) : tageCountersInRange s1 := by
  unfold tageCountersInRange at h ⊢
  rw [hb, ht]
  exact h

/-- The final history shift of `update` does not touch the counter tables. -/
theorem tageCounters_history_if (s : TAGEState) (g : Nat) (h : tageCountersInRange s) :
    tageCountersInRange
      (if 0 < s.max_history then { s with global_history := g } else s) := by
  split
  · exact tageCountersInRange_of_fields rfl rfl h
  · exact h

/-- The allocation scan preserves the TAGE counter invariant: it only ever
writes entries whose counter is 1 or 2. -/
theorem tageAlloc_counters :
    ∀ (k : Nat) (s : TAGEState) (a : Nat) (o : Outcome) (lo : Nat),
      tageCountersInRange s → tageCountersInRange (tageAlloc s a o lo k) := by
  intro k
  induction k with
  | zero => intro s a o lo hinv; exact hinv
  | succ k ih =>
    intro s a o lo hinv
    simp only [tageAlloc]
    by_cases hlo : k + 1 ≤ lo
    · rw [if_pos hlo]; exact hinv
    · rw [if_neg hlo]
      by_cases hu : (tageEntry s k (tageGetIndex s a k)).useful = 0
      · rw [if_pos hu]
        refine tageSetEntry_counters hinv ?_
        refine ⟨?_, ?_⟩ <;> cases o <;> simp
      · rw [if_neg hu]
        exact ih s a o lo hinv

/-- `TAGEPredictor.update` preserves the counter invariant: the provider (or
base) move is saturating from an in-range value, the allocation writes 1 or 2,
and the statistics/history fields are irrelevant. -/
theorem tageUpdate_counters (s : TAGEState) (a : Nat) (o : Outcome)
    (hinv : tageCountersInRange s) : tageCountersInRange (tageUpdate s a o) := by
  cases hprov : tageUpdateScan s a s.num_tables with
  | some p =>
    obtain ⟨i, idx⟩ := p
    simp only [tageUpdate, hprov]
    apply tageCounters_history_if
    split <;> split <;>
      first
      | (refine tageAlloc_counters _ _ _ _ _ (tageSetEntry_counters hinv ?_)
         exact saturate_mem _ o (tageEntry_counter_range hinv i idx).1
           (tageEntry_counter_range hinv i idx).2)
      | (refine tageSetEntry_counters hinv ?_
         exact saturate_mem _ o (tageEntry_counter_range hinv i idx).1
           (tageEntry_counter_range hinv i idx).2)
  | none =>
    simp only [tageUpdate, hprov]
    apply tageCounters_history_if
    split <;> split <;>
      first
      | (refine tageAlloc_counters _ _ _ _ _ ⟨countersInRange_set hinv.1 _ ?_, hinv.2⟩
         exact saturate_mem _ o (countersInRange_getD hinv.1 _).1
           (countersInRange_getD hinv.1 _).2)
      | (refine ⟨countersInRange_set hinv.1 _ ?_, hinv.2⟩
         exact saturate_mem _ o (countersInRange_getD hinv.1 _).1
           (countersInRange_getD hinv.1 _).2)

/-- The construction-time TAGE state satisfies the counter invariant. -/
theorem tageInit_counters (N B : Nat) : tageCountersInRange (tageInit N B) := by
  constructor
  · exact countersInRange_replicate_one B
  · intro t ht e he
    have ht2 := List.eq_of_mem_replicate ht
    rw [ht2] at he
    have he2 := List.eq_of_mem_replicate he
    rw [he2]
    exact ⟨by norm_num, by norm_num⟩

/-- A run of TAGE updates preserves the counter invariant. -/
theorem tageRunUpdates_counters :
    ∀ (ops : List (Nat × Outcome)) (s : TAGEState),
      tageCountersInRange s → tageCountersInRange (tageRunUpdates s ops) := by
  intro ops
  induction ops with
  | nil => intro s hinv; exact hinv
  | cons p rest ih =>
    intro s hinv
    exact ih _ (tageUpdate_counters s p.1 p.2 hinv)

/-- C2: every 2-bit saturating counter of the Bimodal, GShare, and TAGE
predictors stays in `[0, 3]` under every sequence of `update` calls from
construction — increments and decrements clamp at the bounds and newly
allocated TAGE entries start inside the range. -/
theorem claim_C2 :
    (∀ (sz : Int) (ops : List (PyAddr × Outcome)) (s1 : BimodalState),
      bimodalRunUpdates (bimodalInit sz) ops = some s1 → countersInRange s1.table) ∧
    (∀ (hb : Nat) (sz : Int) (ops : List (PyAddr × Outcome)) (s1 : GShareState),
      gshareRunUpdates (gshareInit hb sz) ops = some s1 → countersInRange s1.table) ∧
    (∀ (N B : Nat) (ops : List (Nat × Outcome)),
      tageCountersInRange (tageRunUpdates (tageInit N B) ops)) := by
  refine ⟨?_, ?_, ?_⟩
  · intro sz ops s1 h
    exact bimodalRunUpdates_counters ops _ s1 (countersInRange_replicate_one _) h
  · intro hb sz ops s1 h
    exact gshareRunUpdates_counters ops _ s1 (countersInRange_replicate_one _) h
  · intro N B ops
    exact tageRunUpdates_counters ops _ (tageInit_counters N B)

/-- Witness for C2 on a concrete one-update Bimodal run. -/
theorem claim_C2_witness : countersInRange (BimodalState.mk 4 [1, 1, 1, 2] 0 1).table :=
  claim_C2.1 4 [(PyAddr.int 3, Outcome.taken)] (BimodalState.mk 4 [1, 1, 1, 2] 0 1)
    (by decide)

/-- Any tagged entry read has useful bit 0 when the useful-zero invariant
holds (the out-of-range default also has). -/
theorem tageEntry_useful_zero {s : TAGEState} (hinv : tageUsefulAllZero s) (i idx : Nat) :
    (tageEntry s i idx).useful = 0 := by
  unfold tageEntry
  rcases getD_cases s.tagged_tables i [] with ht | ht
  · rcases getD_cases (s.tagged_tables.getD i []) idx (TaggedEntry.mk 0 0 0) with he | he
    · exact hinv _ ht _ he
    · rw [he]
  · rw [ht]
    rfl

/-- Writing one tagged entry with useful bit 0 preserves the useful-zero
invariant. -/
theorem tageSetEntry_useful {s : TAGEState} {i idx : Nat} {e : TaggedEntry}
    (hinv : tageUsefulAllZero s) (he : e.useful = 0) :
    tageUsefulAllZero (tageSetEntry s i idx e) := by
  intro t ht e2 he2
  rcases List.mem_or_eq_of_mem_set ht with htm | hteq
  · exact hinv t htm e2 he2
  · rw [hteq] at he2
    rcases List.mem_or_eq_of_mem_set he2 with hem | heeq
    · rcases getD_cases s.tagged_tables i [] with hm | hnil
      · exact hinv _ hm e2 hem
      · rw [hnil] at hem; simp at hem
    · rw [heeq]; exact he

/-- The final history shift preserves the useful-zero invariant. -/
theorem tageUseful_history_if (s : TAGEState) (g : Nat) (h : tageUsefulAllZero s) :
    tageUsefulAllZero
      (if 0 < s.max_history then { s with global_history := g } else s) := by
  split
  · exact h
  · exact h

/-- The allocation scan preserves the useful-zero invariant: the fresh entry
it writes carries useful bit 0. -/
theorem tageAlloc_useful :
    ∀ (k : Nat) (s : TAGEState) (a : Nat) (o : Outcome) (lo : Nat),
      tageUsefulAllZero s → tageUsefulAllZero (tageAlloc s a o lo k) := by
  intro k
  induction k with
  | zero => intro s a o lo hinv; exact hinv
  | succ k ih =>
    intro s a o lo hinv
    simp only [tageAlloc]
    by_cases hlo : k + 1 ≤ lo
    · rw [if_pos hlo]; exact hinv
    · rw [if_neg hlo]
      by_cases hu : (tageEntry s k (tageGetIndex s a k)).useful = 0
      · rw [if_pos hu]
        exact tageSetEntry_useful hinv rfl
      · rw [if_neg hu]
        exact ih s a o lo hinv

/-- `TAGEPredictor.update` preserves the useful-zero invariant: the provider
counter rewrite copies the old useful bit (0), allocation writes 0, and no
operation ever writes 1. -/
theorem tageUpdate_useful (s : TAGEState) (a : Nat) (o : Outcome)
    (hinv : tageUsefulAllZero s) : tageUsefulAllZero (tageUpdate s a o) := by
  cases hprov : tageUpdateScan s a s.num_tables with
  | some p =>
    obtain ⟨i, idx⟩ := p
    simp only [tageUpdate, hprov]
    apply tageUseful_history_if
    split <;> split <;>
      first
      | exact tageAlloc_useful _ _ _ _ _
          (tageSetEntry_useful hinv (tageEntry_useful_zero hinv i idx))
      | exact tageSetEntry_useful hinv (tageEntry_useful_zero hinv i idx)
  | none =>
    simp only [tageUpdate, hprov]
    apply tageUseful_history_if
    split <;> split <;>
      first
      | exact tageAlloc_useful _ _ _ _ _ hinv
      | exact hinv

/-- The construction-time TAGE state satisfies the useful-zero invariant. -/
theorem tageInit_useful (N B : Nat) : tageUsefulAllZero (tageInit N B) := by
  intro t ht e he
  have ht2 := List.eq_of_mem_replicate ht
  rw [ht2] at he
  have he2 := List.eq_of_mem_replicate he
  rw [he2]

/-- `reset` restores the useful-zero invariant. -/
theorem tageReset_useful (s : TAGEState) : tageUsefulAllZero (tageReset s) := by
  intro t ht e he
  have ht2 := List.eq_of_mem_replicate ht
  rw [ht2] at he
  have he2 := List.eq_of_mem_replicate he
  rw [he2]

/-- `predict` leaves the TAGE state unchanged (state-passing form). -/
theorem tagePredictS_state (s : TAGEState) (a : Nat) : (tagePredictS s a).2 = s := by
  unfold tagePredictS
  cases h : tageFindProvider s a s.num_tables with
  | none => rfl
  | some p => cases p; rfl

/-- Any sequence of contract operations preserves the useful-zero invariant. -/
theorem tageRun_useful :
    ∀ (ops : List TAGEOp) (s : TAGEState),
      tageUsefulAllZero s → tageUsefulAllZero (tageRun s ops) := by
  intro ops
  induction ops with
  | nil => intro s hinv; exact hinv
  | cons op rest ih =>
    intro s hinv
    cases op with
    | predict a =>
      have hstep : tageStep s (TAGEOp.predict a) = s := tagePredictS_state s a
      show tageUsefulAllZero (tageRun (tageStep s (TAGEOp.predict a)) rest)
      rw [hstep]
      exact ih s hinv
    | update a o => exact ih _ (tageUpdate_useful s a o hinv)
    | reset => exact ih _ (tageReset_useful s)

/-- C10: in every state reachable by predict/update/reset from a constructed
TAGE predictor the useful flag of every tagged entry is 0, and consequently
the misprediction-allocation scan, whenever it has at least one eligible
table, overwrites the slot of the longest-history eligible table. -/
theorem claim_C10 :
    (∀ (N B : Nat) (ops : List TAGEOp), tageUsefulAllZero (tageRun (tageInit N B) ops)) ∧
    (∀ (s : TAGEState) (a : Nat) (o : Outcome) (lo k : Nat),
      tageUsefulAllZero s → s.num_tables = k + 1 → lo ≤ k →
      tageAlloc s a o lo s.num_tables =
        tageSetEntry s k (tageGetIndex s a k)
          (TaggedEntry.mk (if o = Outcome.taken then 2 else 1)
            (tageGetTag s a (s.history_lengths.getD k 0)) 0)) := by
  constructor
  · intro N B ops
    exact tageRun_useful ops _ (tageInit_useful N B)
  · intro s a o lo k hinv hN hlo
    rw [hN]
    simp only [tageAlloc]
    rw [if_neg (by omega), if_pos (tageEntry_useful_zero hinv k _)]

/-- Witness for C10: the allocation scan on a fresh 2-table TAGE predictor
with base provider overwrites the longest-history table's slot. -/
theorem claim_C10_witness :
    tageAlloc (tageInit 2 4) 5 Outcome.taken 0 (tageInit 2 4).num_tables =
      tageSetEntry (tageInit 2 4) 1 (tageGetIndex (tageInit 2 4) 5 1)
        (TaggedEntry.mk 2 (tageGetTag (tageInit 2 4) 5 ((tageInit 2 4).history_lengths.getD 1 0)) 0) :=
  claim_C10.2 (tageInit 2 4) 5 Outcome.taken 0 1 (tageInit_useful 2 4) rfl (by decide)

/-- Characterization of a successful provider scan: it returns the greatest
matching table id below the fuel bound, together with that table's index. -/
theorem tageFindProvider_some_spec (s : TAGEState) (a : Nat) :
    ∀ k i idx, tageFindProvider s a k = some (i, idx) →
      i < k ∧ idx = tageGetIndex s a i ∧ tageTagMatch s a i ∧
        ∀ j, i < j → j < k → ¬ tageTagMatch s a j := by
  intro k
  induction k with
  | zero => intro i idx h; simp [tageFindProvider] at h
  | succ k ih =>
    intro i idx h
    simp only [tageFindProvider] at h
    by_cases hm : (tageEntry s k (tageGetIndex s a k)).tag =
        tageGetTag s a (s.history_lengths.getD k 0)
    · rw [if_pos hm] at h
      have hpair := Option.some_inj.mp h
      have hik : k = i := congrArg Prod.fst hpair
      have hidx : tageGetIndex s a k = idx := congrArg Prod.snd hpair
      subst hik
      refine ⟨by omega, hidx.symm, hm, ?_⟩
      intro j h1 h2
      omega
    · rw [if_neg hm] at h
      obtain ⟨h1, h2, h3, h4⟩ := ih i idx h
      refine ⟨by omega, h2, h3, ?_⟩
      intro j hij hjk
      by_cases hjk2 : j < k
      · exact h4 j hij hjk2
      · have hj : j = k := by omega
        rw [hj]
        exact hm

/-- Characterization of a failed provider scan: no table below the fuel bound
matches. -/
theorem tageFindProvider_none_spec (s : TAGEState) (a : Nat) :
    ∀ k, tageFindProvider s a k = none → ∀ j, j < k → ¬ tageTagMatch s a j := by
  intro k
  induction k with
  | zero => intro _ j hj; omega
  | succ k ih =>
    intro h j hj
    simp only [tageFindProvider] at h
    by_cases hm : (tageEntry s k (tageGetIndex s a k)).tag =
        tageGetTag s a (s.history_lengths.getD k 0)
    · rw [if_pos hm] at h; simp at h
    · rw [if_neg hm] at h
      by_cases hjk : j < k
      · exact ih h j hjk
      · have hj2 : j = k := by omega
        rw [hj2]
        exact hm

/-- The provider scan at the top of `update` is the same function as the one
in `predict`. -/
theorem tageUpdateScan_eq (s : TAGEState) (a : Nat) :
    ∀ k, tageUpdateScan s a k = tageFindProvider s a k := by
  intro k
  induction k with
  | zero => rfl
  | succ k ih =>
    simp only [tageUpdateScan, tageFindProvider]
    rw [ih]

/-- The allocation scan never touches the statistics counters. -/
theorem tageAlloc_stats :
    ∀ (k : Nat) (s : TAGEState) (a : Nat) (o : Outcome) (lo : Nat),
      (tageAlloc s a o lo k).correct_predictions = s.correct_predictions ∧
        (tageAlloc s a o lo k).total_predictions = s.total_predictions := by
  intro k
  induction k with
  | zero => intro s a o lo; exact ⟨rfl, rfl⟩
  | succ k ih =>
    intro s a o lo
    simp only [tageAlloc]
    by_cases hlo : k + 1 ≤ lo
    · rw [if_pos hlo]; exact ⟨rfl, rfl⟩
    · rw [if_neg hlo]
      by_cases hu : (tageEntry s k (tageGetIndex s a k)).useful = 0
      · rw [if_pos hu]; exact ⟨rfl, rfl⟩
      · rw [if_neg hu]; exact ih s a o lo

/-- C1: TAGE's `predict` takes its outcome from the longest-history table
whose stored tag equals the freshly computed tag (the provider), falling back
to the base table when no tagged table matches; `update` recomputes the
provider with the same scan (the two scans are one function), so the scored
prediction inside `update` is exactly the outcome `predict` returns. -/
theorem claim_C1 : ∀ (s : TAGEState) (address : Nat) (o : Outcome),
    (∀ i idx, tageFindProvider s address s.num_tables = some (i, idx) →
      i < s.num_tables ∧ tageTagMatch s address i ∧
        (∀ j, i < j → j < s.num_tables → ¬ tageTagMatch s address j) ∧
        (tagePredictS s address).1 = tageProviderPred s address i) ∧
    (tageFindProvider s address s.num_tables = none →
      (∀ j, j < s.num_tables → ¬ tageTagMatch s address j) ∧
        (tagePredictS s address).1 = tageBasePred s address) ∧
    ((∃ j, j < s.num_tables ∧ tageTagMatch s address j) →
      ∃ i idx, tageFindProvider s address s.num_tables = some (i, idx)) ∧
    (tageUpdateScan s address s.num_tables = tageFindProvider s address s.num_tables) ∧
    ((tageUpdate s address o).total_predictions = s.total_predictions + 1 ∧
      (tageUpdate s address o).correct_predictions =
        s.correct_predictions + (if (tagePredictS s address).1 = o then 1 else 0)) := by
  intro s address o
  refine ⟨?_, ?_, ?_, tageUpdateScan_eq s address s.num_tables, ?_⟩
  · intro i idx h
    obtain ⟨h1, h2, h3, h4⟩ := tageFindProvider_some_spec s address s.num_tables i idx h
    refine ⟨h1, h3, h4, ?_⟩
    simp only [tagePredictS, h]
    unfold tageProviderPred
    rw [← h2]
  · intro h
    refine ⟨tageFindProvider_none_spec s address s.num_tables h, ?_⟩
    simp only [tagePredictS, h]
    rfl
  · intro hex
    cases hfp : tageFindProvider s address s.num_tables with
    | some p =>
      obtain ⟨i, idx⟩ := p
      exact ⟨i, idx, rfl⟩
    | none =>
      obtain ⟨j, hj, hm⟩ := hex
      exact absurd hm (tageFindProvider_none_spec s address s.num_tables hfp j hj)
  · cases hprov : tageFindProvider s address s.num_tables with
    | some p =>
      obtain ⟨i, idx⟩ := p
      have hus : tageUpdateScan s address s.num_tables = some (i, idx) := by
        rw [tageUpdateScan_eq s address s.num_tables, hprov]
      have hpred : (tagePredictS s address).1 =
          (if 2 ≤ (tageEntry s i idx).counter then Outcome.taken else Outcome.not_taken) := by
        simp only [tagePredictS, hprov]
      rw [hpred]
      simp only [tageUpdate, hus]
      constructor <;> (repeat' split) <;>
        first
        | exact (tageAlloc_stats _ _ _ _ _).1
        | exact (tageAlloc_stats _ _ _ _ _).2
        | rfl
    | none =>
      have hus : tageUpdateScan s address s.num_tables = none := by
        rw [tageUpdateScan_eq s address s.num_tables, hprov]
      have hpred : (tagePredictS s address).1 =
          (if 2 ≤ s.base_table.getD (tageGetBaseIndex s address) 0 then Outcome.taken
           else Outcome.not_taken) := by
        simp only [tagePredictS, hprov]
      rw [hpred]
      simp only [tageUpdate, hus]
      constructor <;> (repeat' split) <;>
        first
        | exact (tageAlloc_stats _ _ _ _ _).1
        | exact (tageAlloc_stats _ _ _ _ _).2
        | rfl

/-- Witness for C1 on a fresh 2-table TAGE predictor at address 0, whose tag 0
matches the construction-time tag of the longest-history table. -/
theorem claim_C1_witness :
    1 < (tageInit 2 4).num_tables ∧ tageTagMatch (tageInit 2 4) 0 1 ∧
      (∀ j, 1 < j → j < (tageInit 2 4).num_tables → ¬ tageTagMatch (tageInit 2 4) 0 j) ∧
      (tagePredictS (tageInit 2 4) 0).1 = tageProviderPred (tageInit 2 4) 0 1 :=
  (claim_C1 (tageInit 2 4) 0 Outcome.taken).1 1 0 (by decide)
